import Mathlib

/-!
Shallow embedding of the WAVM repository's two source files:

* `Source/Runtime/Threads.cpp` — the atomic wait/wake core: the refcounted
  per-address wait lists (`openWaitList` / `closeWaitList`), the park primitive
  (`waitOnAddress`), the wake primitive (`wakeAddress`), the timeout decoder
  (`getEndTimeFromTimeout`) and the bounds/alignment pre-validation of the
  `atomic_wake` / `atomic_wait_i32` / `atomic_wait_i64` intrinsics.
* `Lib/LLVMJIT/LLVMEmitModule.cpp` — the module emitter: creation order of the
  external declarations, the personality function, `__cxa_begin_catch`, and the
  per-function-definition prefix data.

Machine integers are modelled as `Nat` (with explicit `% 2^w` where the C++
performs a wrapping conversion), C++ doubles as an exact idealized float type,
fallible code as `Except`, and the global `addressToWaitListMap` as an
association list acted on by explicit state-passing functions.  Concurrency
during the park phase of `waitOnAddress` is abstracted by an oracle
(`ParkEnv`) that fixes the outcome of `Platform::waitForEvent` and the
contents the concurrent wakers left in the wait list.
-/

namespace WAVM

/-- Runtime trap kinds thrown by `Runtime::throwException` in `Threads.cpp`. -/
inductive TrapKind
  | accessViolation
  | misalignedAtomicMemoryAccess
  | integerDivideByZeroOrIntegerOverflow
  | undefinedTableElement
  | indirectCallSignatureMismatch
deriving DecidableEq, Repr

/-- Fatal internal errors (`errorUnless` / `Errors::fatalf`): they abort the
process rather than unwind to the Wasm frame. -/
inductive RtError
  | fatalError
deriving DecidableEq, Repr

/-- `struct WaitList` of `Threads.cpp`: the FIFO list of wake events (each
event identified by a numeric token standing for the `Platform::Event*`) and
the reference count.  The mutex is implicit: every state-passing function
below models a critical section. -/
structure WaitListS where
  wakeEvents : List Nat
  numReferences : Nat
deriving DecidableEq, Repr

/-- The global `addressToWaitListMap`, as an association list from address to
wait list (a `std::map<Uptr, WaitList*>` has unique keys; the operations below
act on the first occurrence of a key). -/
abbrev AddrMap := List (Nat × WaitListS)

/-- `addressToWaitListMap.find(address)`. -/
def mapFind : AddrMap → Nat → Option WaitListS
  | [], _ => none
  | p :: t, a => if p.1 = a then some p.2 else mapFind t a

/-- Overwrite the value stored at the first occurrence of key `a` (no-op when
the key is absent); models mutating the `WaitList` object the map points to. -/
def mapSet : AddrMap → Nat → WaitListS → AddrMap
  | [], _, _ => []
  | p :: t, a, w => if p.1 = a then (a, w) :: t else p :: mapSet t a w

/-- `addressToWaitListMap.erase(address)`. -/
def mapErase : AddrMap → Nat → AddrMap
  | [], _ => []
  | p :: t, a => if p.1 = a then mapErase t a else p :: mapErase t a

/-- `openWaitList` (Threads.cpp:48-63): under the address-table mutex, either
increment the reference count of the existing entry, or emplace a fresh
`WaitList` (whose constructor initializes `numReferences` to 1). -/
def openWaitList (m : AddrMap) (a : Nat) : AddrMap :=
  match mapFind m a with
  | some w => mapSet m a ⟨w.wakeEvents, w.numReferences + 1⟩
  | none => (a, ⟨[], 1⟩) :: m

/-- First half of `closeWaitList` (Threads.cpp:68): the decrement
`--waitList->numReferences`, performed outside the address-table mutex. -/
def closeDecrement (m : AddrMap) (a : Nat) : AddrMap :=
  match mapFind m a with
  | some w => mapSet m a ⟨w.wakeEvents, w.numReferences - 1⟩
  | none => m

/-- Second half of `closeWaitList` (Threads.cpp:70-76): under the
address-table mutex, re-check `numReferences == 0` and only then destroy the
wait list (the code `assert`s `wakeEvents` is empty there — a debug check with
no semantic effect) and erase the table entry.  A concurrent `openWaitList`
may run between `closeDecrement` and `closeFinish`. -/
def closeFinish (m : AddrMap) (a : Nat) : AddrMap :=
  match mapFind m a with
  | some w => if w.numReferences = 0 then mapErase m a else m
  | none => m

/-- `closeWaitList` (Threads.cpp:66-78) with no interference between the
decrement and the re-check. -/
def closeWaitList (m : AddrMap) (a : Nat) : AddrMap :=
  closeFinish (closeDecrement m a) a

/-- All entries of the table have a positive reference count (the table half
of the presence-iff-referenced invariant). -/
def refsPos (m : AddrMap) : Prop := ∀ p ∈ m, 1 ≤ (p.2).numReferences

instance (m : AddrMap) : Decidable (refsPos m) := by
  unfold refsPos; infer_instance

/-! ### Association-list lemmas -/

theorem mapFind_mapSet_self (m : AddrMap) (a : Nat) (w : WaitListS) :
    (mapFind m a).isSome = true → mapFind (mapSet m a w) a = some w := by
  induction m with
  | nil => intro h; simp [mapFind] at h
  | cons p t ih =>
    intro h
    by_cases hpa : p.1 = a
    · simp [mapFind, mapSet, hpa]
    · simp [mapFind, mapSet, hpa] at h ⊢
      exact ih h

theorem mapSet_mapSet (m : AddrMap) (a : Nat) (w w' : WaitListS) :
    mapSet (mapSet m a w) a w' = mapSet m a w' := by
  induction m with
  | nil => rfl
  | cons p t ih =>
    by_cases hpa : p.1 = a
    · simp [mapSet, hpa]
    · simp [mapSet, hpa, ih]

theorem mapSet_find_eq (m : AddrMap) (a : Nat) (w : WaitListS) :
    mapFind m a = some w → mapSet m a w = m := by
  induction m with
  | nil => intro h; simp [mapFind] at h
  | cons p t ih =>
    intro h
    obtain ⟨p1, p2⟩ := p
    by_cases hpa : p1 = a
    · simp [mapFind, hpa] at h
      subst hpa; subst h
      simp [mapSet]
    · simp [mapFind, hpa] at h
      simp [mapSet, hpa, ih h]

theorem mapErase_of_find_none (m : AddrMap) (a : Nat) :
    mapFind m a = none → mapErase m a = m := by
  induction m with
  | nil => intro _; rfl
  | cons p t ih =>
    intro h
    by_cases hpa : p.1 = a
    · simp [mapFind, hpa] at h
    · simp [mapFind, hpa] at h
      simp [mapErase, hpa, ih h]

theorem mapFind_mapErase (m : AddrMap) (a : Nat) :
    mapFind (mapErase m a) a = none := by
  induction m with
  | nil => rfl
  | cons p t ih =>
    by_cases hpa : p.1 = a
    · simp [mapErase, hpa, ih]
    · simp [mapErase, mapFind, hpa, ih]

theorem mem_mapSet (m : AddrMap) (a : Nat) (w : WaitListS) (p : Nat × WaitListS) :
    p ∈ mapSet m a w → p = (a, w) ∨ p ∈ m := by
  induction m with
  | nil => intro h; simp [mapSet] at h
  | cons q t ih =>
    intro h
    by_cases hqa : q.1 = a
    · simp [mapSet, hqa] at h
      rcases h with h | h
      · exact Or.inl h
      · exact Or.inr (List.mem_cons_of_mem _ h)
    · simp [mapSet, hqa] at h
      rcases h with h | h
      · exact Or.inr (by simp [h])
      · rcases ih h with h' | h'
        · exact Or.inl h'
        · exact Or.inr (List.mem_cons_of_mem _ h')

theorem mem_mapErase (m : AddrMap) (a : Nat) (p : Nat × WaitListS) :
    p ∈ mapErase m a → p ∈ m := by
  induction m with
  | nil => intro h; simp [mapErase] at h
  | cons q t ih =>
    intro h
    by_cases hqa : q.1 = a
    · simp [mapErase, hqa] at h
      exact List.mem_cons_of_mem _ (ih h)
    · simp [mapErase, hqa] at h
      rcases h with h | h
      · simp [h]
      · exact List.mem_cons_of_mem _ (ih h)

theorem mem_mapErase_key (m : AddrMap) (a : Nat) (p : Nat × WaitListS) :
    p ∈ mapErase m a → p.1 ≠ a := by
  induction m with
  | nil => intro h; simp [mapErase] at h
  | cons q t ih =>
    intro h
    by_cases hqa : q.1 = a
    · simp [mapErase, hqa] at h
      exact ih h
    · simp [mapErase, hqa] at h
      rcases h with h | h
      · rw [h]; exact hqa
      · exact ih h

theorem mapFind_some_mem (m : AddrMap) (a : Nat) (w : WaitListS) :
    mapFind m a = some w → (a, w) ∈ m := by
  induction m with
  | nil => intro h; simp [mapFind] at h
  | cons p t ih =>
    intro h
    obtain ⟨p1, p2⟩ := p
    by_cases hpa : p1 = a
    · simp [mapFind, hpa] at h
      subst hpa; subst h
      exact List.mem_cons_self _ _
    · simp [mapFind, hpa] at h
      exact List.mem_cons_of_mem _ (ih h)

/-! Equation lemmas reducing each wait-list operation under a known lookup. -/

theorem openWaitList_some {m : AddrMap} {a : Nat} {w : WaitListS}
    (hfind : mapFind m a = some w) :
    openWaitList m a = mapSet m a ⟨w.wakeEvents, w.numReferences + 1⟩ := by
  unfold openWaitList; rw [hfind]

theorem openWaitList_none {m : AddrMap} {a : Nat}
    (hfind : mapFind m a = none) :
    openWaitList m a = (a, ⟨[], 1⟩) :: m := by
  unfold openWaitList; rw [hfind]

theorem closeDecrement_some {m : AddrMap} {a : Nat} {w : WaitListS}
    (hfind : mapFind m a = some w) :
    closeDecrement m a = mapSet m a ⟨w.wakeEvents, w.numReferences - 1⟩ := by
  unfold closeDecrement; rw [hfind]

theorem closeFinish_some {m : AddrMap} {a : Nat} {w : WaitListS}
    (hfind : mapFind m a = some w) :
    closeFinish m a = if w.numReferences = 0 then mapErase m a else m := by
  unfold closeFinish; rw [hfind]

theorem mapFind_cons_self (m : AddrMap) (a : Nat) (w : WaitListS) :
    mapFind ((a, w) :: m) a = some w := by
  simp [mapFind]

/-- Round trip used on the value-mismatch path of `waitOnAddress`: opening and
then immediately closing a wait list leaves the table exactly as it was,
provided every table entry is live (`refsPos`). -/
theorem closeWaitList_openWaitList (m : AddrMap) (a : Nat) (hm : refsPos m) :
    closeWaitList (openWaitList m a) a = m := by
  unfold closeWaitList
  cases hfind : mapFind m a with
  | some w =>
    have hmem : (a, w) ∈ m := mapFind_some_mem m a w hfind
    have hw1 : 1 ≤ w.numReferences := hm _ hmem
    have hsome : (mapFind m a).isSome = true := by simp [hfind]
    rw [openWaitList_some hfind]
    have hfind1 : mapFind (mapSet m a ⟨w.wakeEvents, w.numReferences + 1⟩) a
        = some ⟨w.wakeEvents, w.numReferences + 1⟩ := mapFind_mapSet_self m a _ hsome
    rw [closeDecrement_some hfind1]
    simp only [mapSet_mapSet]
    have hsub : w.numReferences + 1 - 1 = w.numReferences := by omega
    rw [hsub]
    have heta : (⟨w.wakeEvents, w.numReferences⟩ : WaitListS) = w := by cases w; rfl
    rw [heta, mapSet_find_eq m a w hfind, closeFinish_some hfind]
    have : ¬ w.numReferences = 0 := by omega
    simp [this]
  | none =>
    rw [openWaitList_none hfind]
    rw [closeDecrement_some (mapFind_cons_self m a ⟨[], 1⟩)]
    have hset : mapSet ((a, (⟨[], 1⟩ : WaitListS)) :: m) a ⟨[], 1 - 1⟩
        = (a, (⟨[], 0⟩ : WaitListS)) :: m := by
      simp [mapSet]
    rw [hset, closeFinish_some (mapFind_cons_self m a ⟨[], 0⟩)]
    simp only [if_pos rfl]
    have herase : mapErase m a = m := mapErase_of_find_none m a hfind
    simp [mapErase, herase]

/-! ### Timeout decoding (`getEndTimeFromTimeout`, Threads.cpp:101-118) -/

/-- Idealized model of a C++ `F64` (double): NaN, a signed infinity, or an
exact finite value.  Finite arithmetic is exact (rounding of the binary64
format is not modelled). -/
inductive F64M
  | nan
  | inf (neg : Bool)
  | finite (q : ℚ)
deriving DecidableEq

/-- `std::isnan`. -/
def F64M.isNaN : F64M → Bool
  | .nan => true
  | _ => false

/-- `std::isfinite` (false on NaN and on the infinities). -/
def F64M.isFinite : F64M → Bool
  | .finite _ => true
  | _ => false

/-- `timeout * 1000.0` (exact; a finite value never overflows to infinity in
this idealized model). -/
def F64M.mul1000 : F64M → F64M
  | .nan => .nan
  | .inf s => .inf s
  | .finite q => .finite (q * 1000)

/-- Comparison `x <= c` against an exactly-representable constant; false when
`x` is NaN (IEEE comparisons with NaN are false). -/
def F64M.fle : F64M → ℚ → Bool
  | .nan, _ => false
  | .inf s, _ => s
  | .finite q, c => decide (q ≤ c)

/-- The C++ conversion `U64(x)` for a non-negative finite double: truncation
toward zero. -/
def F64M.truncToU64 : F64M → Nat
  | .finite q => q.floor.toNat
  | _ => 0

/-- `UINT64_MAX`. -/
def U64_MAX : Nat := 2 ^ 64 - 1

/-- `UINT32_MAX`. -/
def U32_MAX : Nat := 2 ^ 32 - 1

/-- `getEndTimeFromTimeout` (Threads.cpp:101-118): decode a floating-point
timeout in milliseconds relative to `startTime` (in microseconds).
`endTime` starts as `UINT64_MAX` and is overwritten only inside the
finite-and-in-range branches; `errorUnless(endTime >= startTime)` is the fatal
overflow check on the wrapping 64-bit addition. -/
def getEndTimeFromTimeout (startTime : Nat) (timeout : F64M) : Except RtError Nat :=
  let timeoutMicroseconds := timeout.mul1000
  if !timeoutMicroseconds.isNaN && timeoutMicroseconds.isFinite then
    if timeoutMicroseconds.fle 0 then
      .ok startTime
    else if timeoutMicroseconds.fle ((2 ^ 64 : ℚ) - 2) then
      let endTime := (startTime + timeoutMicroseconds.truncToU64) % 2 ^ 64
      if startTime ≤ endTime then .ok endTime else .error .fatalError
    else
      .ok U64_MAX
  else
    .ok U64_MAX

/-! ### The park primitive (`waitOnAddress`, Threads.cpp:120-171) -/

/-- The wake count the spec names `n`: `min(count, wakeEvents.size())`, with
`count == UINT32_MAX` meaning "all".  Used to compare the code's
`actualNumToWake` against the claim. -/
def claimWakeCount (numToWake len : Nat) : Nat :=
  if numToWake = U32_MAX then len else min numToWake len

/-- The wake-event list stored for `a`, empty when no entry exists. -/
def eventsOf (m : AddrMap) (a : Nat) : List Nat :=
  match mapFind m a with
  | some w => w.wakeEvents
  | none => []

/-- Replace the wake-event list stored for `a` (keeping the reference count);
no-op when no entry exists. -/
def setEvents (m : AddrMap) (a : Nat) (evs : List Nat) : AddrMap :=
  match mapFind m a with
  | some w => mapSet m a ⟨evs, w.numReferences⟩
  | none => m

/-- Oracle abstracting the concurrent environment during the park phase of
`waitOnAddress`:
* `signaled` — the value of `Platform::waitForEvent(threadWakeEvent, endTime)`
  (`true` = the wake event was signaled before the deadline);
* `eventsAtResume` — the contents of `waitList->wakeEvents` when the thread
  resumes (concurrent wakers may have removed tokens, including this one);
* `pendingAtReset` — on the timed-out-but-already-woken race path, the value
  of the immediately-expiring `Platform::waitForEvent` used to reset the
  event (`false` makes the `errorUnless` fatal). -/
structure ParkEnv where
  signaled : Bool
  eventsAtResume : List Nat
  pendingAtReset : Bool
deriving DecidableEq, Repr

/-- `waitOnAddress` (Threads.cpp:120-171).  `memVal` is the value returned by
the seq-cst `atomicLoad(valuePointer)` performed under the wait-list mutex;
`token` is the calling thread's `threadWakeEvent` (created lazily in the
source; its identity is all that matters here).  Returns the wait result code
and the final address table. -/
def waitOnAddress (m : AddrMap) (addr : Nat) (memVal expectedValue : Int)
    (token : Nat) (startTime : Nat) (timeout : F64M) (env : ParkEnv) :
    Except RtError (Nat × AddrMap) :=
  match getEndTimeFromTimeout startTime timeout with
  | .error e => .error e
  | .ok _endTime =>
    -- Open the wait list for this address.
    let m1 := openWaitList m addr
    -- Lock the wait list; check that *valuePointer is still the expected value.
    if memVal ≠ expectedValue then
      -- Unlock and return 1.
      .ok (1, closeWaitList m1 addr)
    else
      -- Append this thread's wake event, unlock, and park.  While parked, the
      -- wait list evolves concurrently; `env.eventsAtResume` is its contents
      -- when this thread next observes it.
      let m2 := setEvents m1 addr (eventsOf m1 addr ++ [token])
      let m3 := setEvents m2 addr env.eventsAtResume
      if env.signaled then
        .ok (0, closeWaitList m3 addr)
      else if token ∈ env.eventsAtResume then
        -- Timed out with the token still registered: remove it (std::find /
        -- erase remove the first occurrence) and report the timeout.
        .ok (2, closeWaitList (setEvents m3 addr (env.eventsAtResume.erase token)) addr)
      else if env.pendingAtReset then
        -- A waker removed the token between the timeout and the lock; consume
        -- the pending signal (fatal if it is not actually pending).
        .ok (0, closeWaitList m3 addr)
      else
        .error .fatalError

/-! ### The wake primitive (`wakeAddress`, Threads.cpp:173-206) -/

deriving instance DecidableEq for Except

/-- Result of `wakeAddress`: the returned count or thrown trap, the events
that were signaled (in signal order), and the final address table. -/
structure WakeResult where
  result : Except TrapKind Nat
  signaled : List Nat
  finalMap : AddrMap
deriving DecidableEq, Repr

/-- `wakeAddress` (Threads.cpp:173-206).  `numToWake` is the `U32` argument
(so `numToWake < 2^32`); `actualNumToWake` is an `Uptr`. -/
def wakeAddress (m : AddrMap) (addr : Nat) (numToWake : Nat) : WakeResult :=
  if numToWake = 0 then ⟨.ok 0, [], m⟩
  else
    -- Open the wait list for this address.
    let m1 := openWaitList m addr
    let evs := eventsOf m1 addr
    -- numToWake == UINT32_MAX means wake all waiting threads.
    let actualNumToWake :=
      if numToWake = U32_MAX ∨ numToWake > evs.length then evs.length else numToWake
    -- Signal the events corresponding to the oldest waiting threads, then
    -- erase them from the front of the list.
    let signaled := evs.take actualNumToWake
    let m2 := setEvents m1 addr (evs.drop actualNumToWake)
    let m3 := closeWaitList m2 addr
    if actualNumToWake > U32_MAX then
      ⟨.error .integerDivideByZeroOrIntegerOverflow, signaled, m3⟩
    else
      ⟨.ok (actualNumToWake % 2 ^ 32), signaled, m3⟩

/-! ### Intrinsic pre-validation (Threads.cpp:215-248)

Each of `atomic_wake`, `atomic_wait_i32` and `atomic_wait_i64` receives its
`addressOffset` as a signed `i32` and validates it against the memory's
`endOffset` before doing anything else.  The model keeps the signed parameter
(`Int`, with the i32 range `[-2^31, 2^31)` as a hypothesis where needed) and
performs the same reinterpretation the C++ `U32(addressOffset)` cast does. -/

/-- The C++ cast `U32(addressOffset)` from `I32`: the two's-complement bit
pattern read as an unsigned 32-bit value. -/
def toU32 (x : Int) : Nat := (x % 2 ^ 32).toNat

/-- Bounds-and-alignment prologue of `atomic_wake` (Threads.cpp:220-221):
`U32(addressOffset) > endOffset` traps with `accessViolation`, then
`addressOffset & 3` nonzero traps with `misalignedAtomicMemoryAccess`. -/
def atomic_wake_prologue (addressOffset : Int) (endOffset : Nat) : Option TrapKind :=
  if toU32 addressOffset > endOffset then some .accessViolation
  else if toU32 addressOffset &&& 3 ≠ 0 then some .misalignedAtomicMemoryAccess
  else none

/-- Bounds-and-alignment prologue of `atomic_wait_i32` (Threads.cpp:232-233):
identical to the wake prologue (4-byte alignment). -/
def atomic_wait_i32_prologue (addressOffset : Int) (endOffset : Nat) : Option TrapKind :=
  if toU32 addressOffset > endOffset then some .accessViolation
  else if toU32 addressOffset &&& 3 ≠ 0 then some .misalignedAtomicMemoryAccess
  else none

/-- Bounds-and-alignment prologue of `atomic_wait_i64` (Threads.cpp:243-244):
bounds check first, then `addressOffset & 7` (8-byte alignment). -/
def atomic_wait_i64_prologue (addressOffset : Int) (endOffset : Nat) : Option TrapKind :=
  if toU32 addressOffset > endOffset then some .accessViolation
  else if toU32 addressOffset &&& 7 ≠ 0 then some .misalignedAtomicMemoryAccess
  else none

/-! ### Module emitter (`LLVMEmitModule.cpp`) -/

/-- An LLVM constant as the emitter builds them: an imported 8-bit external
global (`createImportedConstant`) or its `ptrtoint` cast to the machine word
type `iptrType`. -/
inductive LLVMConst
  | importedGlobal (name : String)
  | ptrToInt (g : LLVMConst)
deriving DecidableEq, Repr

/-- Function declaration types that occur in the emitter. -/
inductive FuncSig
  | i8pToI8p
  | voidToI32
  | wasm (typeIndex : Nat)
deriving DecidableEq, Repr

/-- A declaration created in the output `llvm::Module`, in creation order. -/
inductive Decl
  | externFunc (name : String) (sig : FuncSig)
  | globalVar (name : String)
  | wasmFunc (name : String)
deriving DecidableEq, Repr

/-- Modelled from the spec: `getExternalName(base, index)` is defined outside
this repository; the spec's external-name grammar is `base<i>`
(`typeId<i>`, `functionDef<j>`, ...). -/
def getExternalName (base : String) (index : Nat) : String :=
  base ++ toString index

/-- A function definition in the IR module (`FunctionDef`): only the index of
its type is relevant to the emitter model (`def.type.index`). -/
structure FunctionDefIR where
  typeIndex : Nat
deriving DecidableEq, Repr

/-- The parts of `IR::Module` read by `emitModule`: counts of the indexed
spaces, the number of imported functions, and the function definitions. -/
structure IRModuleM where
  numTypes : Nat
  numFunctionImports : Nat
  defs : List FunctionDefIR
  numTables : Nat
  numMemories : Nat
  numGlobals : Nat
  numExceptionTypes : Nat
deriving DecidableEq, Repr

/-- A function definition as emitted: the attached personality function name
and the prefix-data constants. -/
structure EmittedDef where
  personality : Option String
  prefixData : List LLVMConst
deriving DecidableEq, Repr

/-- The observable output of `emitModule`: all declarations in creation
order, the handle arrays of `EmitModuleContext`, the personality name, and
the per-definition results. -/
structure EmittedModule where
  decls : List Decl
  typeIds : List LLVMConst
  personalityName : String
  functionDefs : List EmittedDef
deriving DecidableEq, Repr

/-- Declarations created by the `EmitModuleContext` constructor
(LLVMEmitModule.cpp:83-92): on non-SEH targets, the `__cxa_begin_catch`
external declaration of type `i8* -> i8*`; nothing on SEH targets.
Modelled from the spec for the target split: the macros `_WIN32` and
`USE_WINDOWS_SEH` are defined outside this repository, and the spec
identifies Windows targets with SEH targets, so one flag models both. -/
def emitModuleContextDecls (windowsSEH : Bool) : List Decl :=
  if windowsSEH then [] else [.externFunc "__cxa_begin_catch" .i8pToI8p]

/-- The name of the exception personality function
(LLVMEmitModule.cpp:112-121). -/
def personalityFunctionName (windowsSEH : Bool) : String :=
  if windowsSEH then "__C_specific_handler" else "__gxx_personality_v0"

/-- The `typeIds` array (LLVMEmitModule.cpp:125-130): for each type index, a
`ptrtoint` of the imported constant `typeId<i>`. -/
def emitTypeIds (numTypes : Nat) : List LLVMConst :=
  (List.range numTypes).map fun i => .ptrToInt (.importedGlobal (getExternalName "typeId" i))

/-- The name of the `i`-th LLVM function shell (LLVMEmitModule.cpp:183-189):
`functionImport<i>` for imports, `functionDef<i - imports>` for definitions. -/
def functionShellName (numFunctionImports : Nat) (i : Nat) : String :=
  if numFunctionImports ≤ i then getExternalName "functionDef" (i - numFunctionImports)
  else getExternalName "functionImport" i

/-- Per-definition emission (LLVMEmitModule.cpp:195-214): attach the
personality function and set the prefix data to the two-element machine-word
array `[ptrtoint functionDefInstance<j>, typeIds[def.type.index]]`. -/
def emitFunctionDef (typeIds : List LLVMConst) (personalityName : String)
    (j : Nat) (d : FunctionDefIR) : EmittedDef :=
  { personality := some personalityName
    prefixData :=
      [ .ptrToInt (.importedGlobal (getExternalName "functionDefInstance" j)),
        typeIds.getD d.typeIndex (.importedGlobal "") ] }

/-- `emitModule` (LLVMEmitModule.cpp:105-220), recording the declarations it
creates in order and the per-definition outputs.  Function bodies
(`EmitFunctionContext(...).emit()`) and debug-info finalization are external
collaborators and add no declarations of their own here. -/
def emitModule (irModule : IRModuleM) (windowsSEH : Bool) : EmittedModule :=
  let personalityName := personalityFunctionName windowsSEH
  let typeIds := emitTypeIds irModule.numTypes
  { decls :=
      emitModuleContextDecls windowsSEH
      ++ [.externFunc personalityName .voidToI32]
      ++ (List.range irModule.numTypes).map (fun i => .globalVar (getExternalName "typeId" i))
      ++ (List.range irModule.numTables).map (fun i => .globalVar (getExternalName "tableOffset" i))
      ++ (List.range irModule.numMemories).map (fun i => .globalVar (getExternalName "memoryOffset" i))
      ++ (List.range irModule.numGlobals).map (fun i => .globalVar (getExternalName "global" i))
      ++ (List.range irModule.numExceptionTypes).map
          (fun i => .globalVar (getExternalName "exceptionType" i))
      ++ [.globalVar "moduleInstance", .globalVar "tableReferenceBias"]
      ++ (List.range (irModule.numFunctionImports + irModule.defs.length)).map
          (fun i => .wasmFunc (functionShellName irModule.numFunctionImports i))
      ++ (List.range irModule.defs.length).map
          (fun j => .globalVar (getExternalName "functionDefInstance" j))
    typeIds := typeIds
    personalityName := personalityName
    functionDefs :=
      (List.range irModule.defs.length).map fun j =>
        emitFunctionDef typeIds personalityName j (irModule.defs.getD j ⟨0⟩) }

/-! ## Theorems -/

theorem and_three (x : Nat) : x &&& 3 = x % 4 :=
  Nat.and_pow_two_sub_one_eq_mod x 2

theorem and_seven (x : Nat) : x &&& 7 = x % 8 :=
  Nat.and_pow_two_sub_one_eq_mod x 3

theorem floor_le_of_le_pow64 {q : ℚ} (h : q ≤ (2 : ℚ) ^ 64 - 2) :
    q.floor ≤ 2 ^ 64 - 2 := by
  by_contra hc
  push_neg at hc
  have h2 : (2 ^ 64 - 1 : ℤ) ≤ q.floor := by omega
  have := Rat.le_floor.mp h2
  have hcast : ((2 ^ 64 - 1 : ℤ) : ℚ) = (2 : ℚ) ^ 64 - 1 := by push_cast; ring
  rw [hcast] at this
  linarith

/-- C3: for every `startTime` (a `U64`) and every timeout, with
`µs = timeout × 1000.0`: the decoder returns `UINT64_MAX` when `µs` is NaN or
infinite; `startTime` when `µs ≤ 0`; `startTime + truncate(µs)` when
`0 < µs ≤ UINT64_MAX − 1` and the wrapping 64-bit addition does not wrap
below `startTime`, a fatal internal error when it does wrap; and `UINT64_MAX`
in all remaining cases (`µs > UINT64_MAX − 1`). -/
theorem getEndTimeFromTimeout_spec (startTime : Nat) (hst : startTime < 2 ^ 64)
    (timeout : F64M) :
    (timeout.mul1000.isNaN = true ∨ timeout.mul1000.isFinite = false →
       getEndTimeFromTimeout startTime timeout = .ok U64_MAX) ∧
    (∀ q, timeout.mul1000 = F64M.finite q → q ≤ 0 →
       getEndTimeFromTimeout startTime timeout = .ok startTime) ∧
    (∀ q, timeout.mul1000 = F64M.finite q → 0 < q → q ≤ (2 : ℚ) ^ 64 - 2 →
       startTime + q.floor.toNat < 2 ^ 64 →
       getEndTimeFromTimeout startTime timeout = .ok (startTime + q.floor.toNat)) ∧
    (∀ q, timeout.mul1000 = F64M.finite q → 0 < q → q ≤ (2 : ℚ) ^ 64 - 2 →
       2 ^ 64 ≤ startTime + q.floor.toNat →
       getEndTimeFromTimeout startTime timeout = .error .fatalError) ∧
    (∀ q, timeout.mul1000 = F64M.finite q → (2 : ℚ) ^ 64 - 2 < q →
       getEndTimeFromTimeout startTime timeout = .ok U64_MAX) := by
  refine ⟨?_, ?_, ?_, ?_, ?_⟩
  · intro h
    unfold getEndTimeFromTimeout
    cases hmu : timeout.mul1000 with
    | nan => simp [F64M.isNaN, F64M.isFinite]
    | inf s => simp [F64M.isNaN, F64M.isFinite]
    | finite q => rw [hmu] at h; simp [F64M.isNaN, F64M.isFinite] at h
  · intro q hmu hq
    unfold getEndTimeFromTimeout
    rw [hmu]
    simp [F64M.isNaN, F64M.isFinite, F64M.fle, hq]
  · intro q hmu hq0 hq2 hsum
    unfold getEndTimeFromTimeout
    rw [hmu]
    have hfle0 : ¬ q ≤ 0 := not_le.mpr hq0
    simp only [F64M.isNaN, F64M.isFinite, F64M.fle, F64M.truncToU64, Bool.not_false,
      Bool.true_and, decide_eq_true_eq, if_true, hfle0, if_false, hq2]
    rw [Nat.mod_eq_of_lt hsum, if_pos (Nat.le_add_right _ _)]
  · intro q hmu hq0 hq2 hsum
    unfold getEndTimeFromTimeout
    rw [hmu]
    have hfle0 : ¬ q ≤ 0 := not_le.mpr hq0
    have hfloor : q.floor.toNat ≤ 2 ^ 64 - 2 := by
      have := floor_le_of_le_pow64 hq2
      omega
    simp only [F64M.isNaN, F64M.isFinite, F64M.fle, F64M.truncToU64, Bool.not_false,
      Bool.true_and, decide_eq_true_eq, if_true, hfle0, if_false, hq2]
    rw [if_neg (by omega)]
  · intro q hmu hq2
    unfold getEndTimeFromTimeout
    rw [hmu]
    have h0 : q ≤ 0 → False := by intro h; nlinarith
    have hfle0 : ¬ q ≤ 0 := fun h => h0 h
    have hfle2 : ¬ q ≤ (2 : ℚ) ^ 64 - 2 := not_le.mpr hq2
    simp only [F64M.isNaN, F64M.isFinite, F64M.fle, Bool.not_false, Bool.true_and,
      decide_eq_true_eq, if_true, hfle0, hfle2, if_false]

/-- Witness for C3 at a concrete input: `startTime = 5`,
`timeout = 2.0` milliseconds gives `µs = 2000` and deadline `2005`. -/
theorem getEndTimeFromTimeout_spec_witness :
    getEndTimeFromTimeout 5 (F64M.finite 2) = .ok 2005 := by
  have h := (getEndTimeFromTimeout_spec 5 (by norm_num) (F64M.finite 2)).2.2.1
    2000 (by simp [F64M.mul1000]; norm_num) (by norm_num) (by norm_num) (by decide)
  simpa using h

/-- C4: for every `i32` offset and memory bound, each of the three intrinsic
prologues traps with `accessViolation` iff `U32(offset) > endOffset` (so
equality is accepted, and the bounds check dominates the alignment check),
and, when in bounds, traps with `misalignedAtomicMemoryAccess` iff the offset
is misaligned for the access width: 4 bytes for `atomic_wake` and
`atomic_wait_i32`, 8 bytes for `atomic_wait_i64`. -/
theorem atomic_prologue_spec (addressOffset : Int) (endOffset : Nat) :
    (atomic_wake_prologue addressOffset endOffset = some .accessViolation ↔
       toU32 addressOffset > endOffset) ∧
    (atomic_wait_i32_prologue addressOffset endOffset = some .accessViolation ↔
       toU32 addressOffset > endOffset) ∧
    (atomic_wait_i64_prologue addressOffset endOffset = some .accessViolation ↔
       toU32 addressOffset > endOffset) ∧
    (toU32 addressOffset ≤ endOffset →
      ((atomic_wake_prologue addressOffset endOffset
          = some .misalignedAtomicMemoryAccess ↔ toU32 addressOffset % 4 ≠ 0) ∧
       (atomic_wait_i32_prologue addressOffset endOffset
          = some .misalignedAtomicMemoryAccess ↔ toU32 addressOffset % 4 ≠ 0) ∧
       (atomic_wait_i64_prologue addressOffset endOffset
          = some .misalignedAtomicMemoryAccess ↔ toU32 addressOffset % 8 ≠ 0))) := by
  unfold atomic_wake_prologue atomic_wait_i32_prologue atomic_wait_i64_prologue
  rw [and_three, and_seven]
  by_cases hb : toU32 addressOffset > endOffset
  · simp [hb]
  · have hb' : ¬ toU32 addressOffset > endOffset := hb
    refine ⟨?_, ?_, ?_, fun _ => ?_⟩
    · by_cases h4 : toU32 addressOffset % 4 = 0 <;> simp [hb', h4]
    · by_cases h4 : toU32 addressOffset % 4 = 0 <;> simp [hb', h4]
    · by_cases h8 : toU32 addressOffset % 8 = 0 <;> simp [hb', h8]
    · refine ⟨?_, ?_, ?_⟩
      · by_cases h4 : toU32 addressOffset % 4 = 0 <;> simp [hb', h4]
      · by_cases h4 : toU32 addressOffset % 4 = 0 <;> simp [hb', h4]
      · by_cases h8 : toU32 addressOffset % 8 = 0 <;> simp [hb', h8]

/-- Witness for C4 at a concrete input: offset `6` with bound `8` is in
bounds, misaligned for width 4. -/
theorem atomic_prologue_spec_witness :
    atomic_wake_prologue 6 8 = some TrapKind.misalignedAtomicMemoryAccess ∧
    toU32 6 % 4 ≠ 0 := by
  have h := ((atomic_prologue_spec 6 8).2.2.2 (by decide)).1
  exact ⟨h.mpr (by decide), by decide⟩

/-- C10: the bounds checks reinterpret the signed `i32` offset as an unsigned
32-bit value, so every offset with the sign bit set (a negative `i32`)
compares as a value `≥ 2^31`, and traps with `accessViolation` whenever
`endOffset < 2^31`. -/
theorem negative_offset_access_violation (addressOffset : Int) (endOffset : Nat)
    (hlo : -(2 ^ 31) ≤ addressOffset) (hneg : addressOffset < 0) :
    2 ^ 31 ≤ toU32 addressOffset ∧
    (endOffset < 2 ^ 31 →
      atomic_wake_prologue addressOffset endOffset = some .accessViolation ∧
      atomic_wait_i32_prologue addressOffset endOffset = some .accessViolation ∧
      atomic_wait_i64_prologue addressOffset endOffset = some .accessViolation) := by
  have hge : 2 ^ 31 ≤ toU32 addressOffset := by
    unfold toU32
    omega
  refine ⟨hge, fun hend => ?_⟩
  have hb : toU32 addressOffset > endOffset := by omega
  unfold atomic_wake_prologue atomic_wait_i32_prologue atomic_wait_i64_prologue
  simp [hb]

/-- Witness for C10 at a concrete input: offset `-4` maps to `2^32 - 4`. -/
theorem negative_offset_access_violation_witness :
    2 ^ 31 ≤ toU32 (-4) ∧ atomic_wake_prologue (-4) 65536 = some TrapKind.accessViolation := by
  have h := negative_offset_access_violation (-4) 65536 (by norm_num) (by norm_num)
  exact ⟨h.1, (h.2 (by norm_num)).1⟩

/-- C5: the address-table invariant.  Every table entry keeps
`numReferences ≥ 1` across `openWaitList` and `closeWaitList`;
`openWaitList` increments an existing entry's count, or inserts a fresh
`WaitList` with `numReferences = 1` (and empty `wakeEvents`);
`closeWaitList` erases the table entry exactly when the decremented count is
re-checked to be 0 under the address-table mutex (the source also `assert`s
`wakeEvents` empty there, a debug check); and a concurrent `openWaitList`
between the decrement and the re-check resurrects the entry, which then
stays in the table with one reference. -/
theorem waitList_refcount_invariant (m : AddrMap) (a : Nat) :
    (refsPos m → refsPos (openWaitList m a)) ∧
    (refsPos m → refsPos (closeWaitList m a)) ∧
    (∀ w, mapFind m a = some w →
       mapFind (openWaitList m a) a = some ⟨w.wakeEvents, w.numReferences + 1⟩) ∧
    (mapFind m a = none → mapFind (openWaitList m a) a = some ⟨[], 1⟩) ∧
    (∀ w, mapFind (closeDecrement m a) a = some w →
       (mapFind (closeWaitList m a) a = none ↔ w.numReferences = 0)) ∧
    (∀ w, mapFind (closeDecrement m a) a = some w → w.numReferences = 0 →
       mapFind (closeFinish (openWaitList (closeDecrement m a) a) a) a
         = some ⟨w.wakeEvents, 1⟩) := by
  refine ⟨?_, ?_, ?_, ?_, ?_, ?_⟩
  · intro hm p hp
    cases hfind : mapFind m a with
    | some w =>
      rw [openWaitList_some hfind] at hp
      rcases mem_mapSet _ _ _ _ hp with h | h
      · rw [h]; simp
      · exact hm _ h
    | none =>
      rw [openWaitList_none hfind] at hp
      rcases List.mem_cons.mp hp with h | h
      · rw [h]
      · exact hm _ h
  · intro hm p hp
    unfold closeWaitList at hp
    cases hfind : mapFind m a with
    | some w =>
      have hdec : closeDecrement m a = mapSet m a ⟨w.wakeEvents, w.numReferences - 1⟩ :=
        closeDecrement_some hfind
      have hsome : (mapFind m a).isSome = true := by simp [hfind]
      have hfind1 : mapFind (closeDecrement m a) a
          = some ⟨w.wakeEvents, w.numReferences - 1⟩ := by
        rw [hdec]; exact mapFind_mapSet_self m a _ hsome
      rw [closeFinish_some hfind1] at hp
      by_cases h0 : w.numReferences - 1 = 0
      · simp only [h0, if_pos rfl] at hp
        have hmem := mem_mapErase _ _ _ hp
        have hkey := mem_mapErase_key _ _ _ hp
        rw [hdec] at hmem
        rcases mem_mapSet _ _ _ _ hmem with h | h
        · exfalso; apply hkey; rw [h]
        · exact hm _ h
      · simp only [if_neg (by simpa using h0)] at hp
        rw [hdec] at hp
        rcases mem_mapSet _ _ _ _ hp with h | h
        · rw [h]; simp; omega
        · exact hm _ h
    | none =>
      have hdec : closeDecrement m a = m := by unfold closeDecrement; rw [hfind]
      rw [hdec] at hp
      have hfin : closeFinish m a = m := by unfold closeFinish; rw [hfind]
      rw [hfin] at hp
      exact hm _ hp
  · intro w hfind
    rw [openWaitList_some hfind]
    exact mapFind_mapSet_self m a _ (by simp [hfind])
  · intro hfind
    rw [openWaitList_none hfind]
    exact mapFind_cons_self m a _
  · intro w hfind1
    unfold closeWaitList
    rw [closeFinish_some hfind1]
    by_cases h0 : w.numReferences = 0
    · simp only [h0, if_pos rfl]
      simp [mapFind_mapErase]
    · simp only [if_neg h0]
      rw [hfind1]
      simp [h0]
  · intro w hfind1 hw0
    rw [openWaitList_some hfind1]
    have hfind2 : mapFind (mapSet (closeDecrement m a) a
        ⟨w.wakeEvents, w.numReferences + 1⟩) a
        = some ⟨w.wakeEvents, w.numReferences + 1⟩ :=
      mapFind_mapSet_self _ a _ (by simp [hfind1])
    rw [closeFinish_some hfind2]
    rw [if_neg (by simp)]
    rw [hfind2, hw0]

/-- Witness for C5 at a concrete table: one live entry at address 7. -/
theorem waitList_refcount_invariant_witness :
    refsPos (openWaitList [(7, ⟨[], 2⟩)] 7) ∧
    mapFind (openWaitList [(7, ⟨[], 2⟩)] 7) 7 = some ⟨[], 3⟩ := by
  have h := waitList_refcount_invariant [(7, ⟨[], 2⟩)] 7
  exact ⟨h.1 (by decide), h.2.2.1 ⟨[], 2⟩ (by decide)⟩

/-- C9: on the not-equal path, `waitOnAddress` returns `1` with all shared
state restored: no wake token is appended, `wakeEvents` is exactly as before
the call, and the reference taken by `openWaitList` is released by
`closeWaitList`, so the address table is unchanged — no extra entry and no
extra reference. -/
theorem waitOnAddress_mismatch_restores_state (m : AddrMap) (addr : Nat)
    (memVal expectedValue : Int) (token : Nat) (startTime : Nat) (timeout : F64M)
    (env : ParkEnv) (hm : refsPos m) (hne : memVal ≠ expectedValue)
    (hend : ∃ e, getEndTimeFromTimeout startTime timeout = Except.ok e) :
    waitOnAddress m addr memVal expectedValue token startTime timeout env
      = Except.ok (1, m) := by
  obtain ⟨e, he⟩ := hend
  unfold waitOnAddress
  rw [he]
  simp only [if_pos hne]
  rw [closeWaitList_openWaitList m addr hm]

/-- Witness for C9 at a concrete input: value 7 observed, 8 expected. -/
theorem waitOnAddress_mismatch_restores_state_witness :
    waitOnAddress [(3, ⟨[9], 1⟩)] 3 7 8 5 0 F64M.nan ⟨true, [], true⟩
      = Except.ok (1, [(3, ⟨[9], 1⟩)]) := by
  exact waitOnAddress_mismatch_restores_state [(3, ⟨[9], 1⟩)] 3 7 8 5 0
    F64M.nan ⟨true, [], true⟩ (by decide) (by decide)
    ⟨U64_MAX, by simp [getEndTimeFromTimeout, F64M.mul1000, F64M.isNaN, F64M.isFinite]⟩

/-- C2: `waitOnAddress` returns exactly one of the codes 0, 1, 2: `1` iff the
seq-cst load under the wait-list mutex differs from the expected value
(without parking); `2` iff the value matched, the deadline passed, and the
thread's token was found still on the wait list; and `0` otherwise — only
when the token was actually signaled, either before the deadline or by a
waker that raced the timeout and removed the token, never optimistically.
The hypothesis `hcons` is the environment consistency the source relies on
(a waker that removed the token has signaled it), and `hend` excludes the
fatal abort inside timeout decoding. -/
theorem waitOnAddress_return_codes (m : AddrMap) (addr : Nat)
    (memVal expectedValue : Int) (token : Nat) (startTime : Nat) (timeout : F64M)
    (env : ParkEnv)
    (hcons : env.signaled = false → token ∉ env.eventsAtResume →
      env.pendingAtReset = true)
    (hend : ∃ e, getEndTimeFromTimeout startTime timeout = Except.ok e) :
    ∃ r m2, waitOnAddress m addr memVal expectedValue token startTime timeout env
        = Except.ok (r, m2) ∧
      (r = 0 ∨ r = 1 ∨ r = 2) ∧
      (r = 1 ↔ memVal ≠ expectedValue) ∧
      (r = 2 ↔ memVal = expectedValue ∧ env.signaled = false ∧
        token ∈ env.eventsAtResume) ∧
      (r = 0 ↔ memVal = expectedValue ∧ (env.signaled = true ∨
        token ∉ env.eventsAtResume)) := by
  obtain ⟨e, he⟩ := hend
  unfold waitOnAddress
  rw [he]
  by_cases hv : memVal = expectedValue
  · rw [if_neg (by simp [hv])]
    by_cases hs : env.signaled = true
    · rw [if_pos hs]
      exact ⟨0, _, rfl, by simp, by simp [hv], by simp [hs], by simp [hv, hs]⟩
    · have hs' : env.signaled = false := by simpa using hs
      rw [if_neg hs]
      by_cases ht : token ∈ env.eventsAtResume
      · rw [if_pos ht]
        exact ⟨2, _, rfl, by simp, by simp [hv], by simp [hv, hs', ht],
          by simp [hs', ht]⟩
      · have hp := hcons hs' ht
        rw [if_neg ht, if_pos hp]
        exact ⟨0, _, rfl, by simp, by simp [hv], by simp [ht], by simp [hv, ht]⟩
  · rw [if_pos hv]
    exact ⟨1, _, rfl, by simp, by simp [hv], by simp [hv], by simp [hv]⟩

/-- Witness for C2 at a concrete input: matching value, timeout with the
token still listed, giving code 2. -/
theorem waitOnAddress_return_codes_witness :
    ∃ r m2, waitOnAddress [] 3 7 7 5 0 F64M.nan ⟨false, [5], true⟩
        = Except.ok (r, m2) ∧ r = 2 := by
  obtain ⟨r, m2, hrun, _, _, h2, _⟩ := waitOnAddress_return_codes [] 3 7 7 5 0
    F64M.nan ⟨false, [5], true⟩ (by intro _ h; exact absurd (by decide) h)
    ⟨U64_MAX, by simp [getEndTimeFromTimeout, F64M.mul1000, F64M.isNaN, F64M.isFinite]⟩
  exact ⟨r, m2, hrun, h2.mpr (by decide)⟩

/-! ### Helper lemmas for `wakeAddress` -/

theorem eventsOf_cons_self (m : AddrMap) (a : Nat) (w : WaitListS) :
    eventsOf ((a, w) :: m) a = w.wakeEvents := by
  unfold eventsOf
  rw [mapFind_cons_self]

theorem eventsOf_openWaitList (m : AddrMap) (a : Nat) :
    eventsOf (openWaitList m a) a = eventsOf m a := by
  cases hfind : mapFind m a with
  | some w =>
    rw [openWaitList_some hfind]
    unfold eventsOf
    rw [mapFind_mapSet_self m a _ (by simp [hfind]), hfind]
  | none =>
    rw [openWaitList_none hfind]
    unfold eventsOf
    rw [mapFind_cons_self, hfind]

theorem wakeAddress_result_eq (m : AddrMap) (addr numToWake : Nat)
    (hnz : numToWake ≠ 0) :
    (wakeAddress m addr numToWake).result
      = (if (if numToWake = U32_MAX ∨ numToWake > (eventsOf m addr).length
              then (eventsOf m addr).length else numToWake) > U32_MAX
         then Except.error TrapKind.integerDivideByZeroOrIntegerOverflow
         else Except.ok ((if numToWake = U32_MAX ∨ numToWake > (eventsOf m addr).length
              then (eventsOf m addr).length else numToWake) % 2 ^ 32)) := by
  simp only [wakeAddress, if_neg hnz, eventsOf_openWaitList]
  by_cases h : (if numToWake = U32_MAX ∨ numToWake > (eventsOf m addr).length
      then (eventsOf m addr).length else numToWake) > U32_MAX
  · rw [if_pos h, if_pos h]
  · rw [if_neg h, if_neg h]

theorem wakeAddress_signaled_eq (m : AddrMap) (addr numToWake : Nat)
    (hnz : numToWake ≠ 0) :
    (wakeAddress m addr numToWake).signaled
      = (eventsOf m addr).take
          (if numToWake = U32_MAX ∨ numToWake > (eventsOf m addr).length
           then (eventsOf m addr).length else numToWake) := by
  simp only [wakeAddress, if_neg hnz, eventsOf_openWaitList]
  by_cases h : (if numToWake = U32_MAX ∨ numToWake > (eventsOf m addr).length
      then (eventsOf m addr).length else numToWake) > U32_MAX
  · rw [if_pos h]
  · rw [if_neg h]

theorem eventsOf_close_setEvents_some {m : AddrMap} {a : Nat} {w : WaitListS}
    (l : List Nat) (hfind : mapFind m a = some w) (hw1 : 1 ≤ w.numReferences) :
    eventsOf (closeWaitList (setEvents (openWaitList m a) a l) a) a = l := by
  rw [openWaitList_some hfind]
  have hfind1 : mapFind (mapSet m a ⟨w.wakeEvents, w.numReferences + 1⟩) a
      = some ⟨w.wakeEvents, w.numReferences + 1⟩ :=
    mapFind_mapSet_self m a _ (by simp [hfind])
  unfold setEvents
  rw [hfind1]
  dsimp only
  simp only [mapSet_mapSet]
  unfold closeWaitList
  have hfind2 : mapFind (mapSet m a ⟨l, w.numReferences + 1⟩) a
      = some ⟨l, w.numReferences + 1⟩ :=
    mapFind_mapSet_self m a _ (by simp [hfind])
  rw [closeDecrement_some hfind2]
  simp only [mapSet_mapSet]
  have hfind3 : mapFind (mapSet m a ⟨l, w.numReferences + 1 - 1⟩) a
      = some ⟨l, w.numReferences + 1 - 1⟩ :=
    mapFind_mapSet_self m a _ (by simp [hfind])
  rw [closeFinish_some hfind3]
  rw [if_neg (by simp; omega)]
  unfold eventsOf
  rw [hfind3]

theorem eventsOf_close_setEvents_none {m : AddrMap} {a : Nat}
    (hfind : mapFind m a = none) :
    eventsOf (closeWaitList (setEvents (openWaitList m a) a []) a) a = [] := by
  rw [openWaitList_none hfind]
  unfold setEvents
  rw [mapFind_cons_self]
  dsimp only
  have hset : mapSet ((a, (⟨[], 1⟩ : WaitListS)) :: m) a ⟨[], 1⟩
      = (a, (⟨[], 1⟩ : WaitListS)) :: m := by
    simp [mapSet]
  rw [hset]
  unfold closeWaitList
  rw [closeDecrement_some (mapFind_cons_self m a ⟨[], 1⟩)]
  have hset2 : mapSet ((a, (⟨[], 1⟩ : WaitListS)) :: m) a ⟨[], 1 - 1⟩
      = (a, (⟨[], 0⟩ : WaitListS)) :: m := by
    simp [mapSet]
  rw [hset2, closeFinish_some (mapFind_cons_self m a ⟨[], 0⟩)]
  rw [if_pos rfl]
  have herase0 : mapErase m a = m := mapErase_of_find_none m a hfind
  have herase : mapErase ((a, (⟨[], 0⟩ : WaitListS)) :: m) a = m := by
    simp [mapErase, herase0]
  rw [herase]
  unfold eventsOf
  rw [hfind]

theorem wakeAddress_finalMap_events (m : AddrMap) (addr numToWake : Nat)
    (hnz : numToWake ≠ 0) (hm : refsPos m) :
    eventsOf (wakeAddress m addr numToWake).finalMap addr
      = (eventsOf m addr).drop
          (if numToWake = U32_MAX ∨ numToWake > (eventsOf m addr).length
           then (eventsOf m addr).length else numToWake) := by
  have hfinal : (wakeAddress m addr numToWake).finalMap
      = closeWaitList (setEvents (openWaitList m addr) addr
          ((eventsOf m addr).drop
            (if numToWake = U32_MAX ∨ numToWake > (eventsOf m addr).length
             then (eventsOf m addr).length else numToWake))) addr := by
    simp only [wakeAddress, if_neg hnz, eventsOf_openWaitList]
    by_cases h : (if numToWake = U32_MAX ∨ numToWake > (eventsOf m addr).length
        then (eventsOf m addr).length else numToWake) > U32_MAX
    · rw [if_pos h]
    · rw [if_neg h]
  rw [hfinal]
  cases hfind : mapFind m addr with
  | some w =>
    exact eventsOf_close_setEvents_some _ hfind (hm _ (mapFind_some_mem m addr w hfind))
  | none =>
    have hevm : eventsOf m addr = [] := by unfold eventsOf; rw [hfind]
    rw [hevm]
    simp only [List.drop_nil]
    exact eventsOf_close_setEvents_none hfind

theorem actual_eq_claimWakeCount (numToWake len : Nat) :
    (if numToWake = U32_MAX ∨ numToWake > len then len else numToWake)
      = claimWakeCount numToWake len := by
  unfold claimWakeCount
  by_cases h1 : numToWake = U32_MAX
  · simp [h1]
  · by_cases h2 : numToWake > len
    · rw [if_pos (Or.inr h2), if_neg h1]
      omega
    · rw [if_neg (by push_neg; exact ⟨h1, by omega⟩), if_neg h1]
      omega

/-- C1 (amended): a wake with `count == 0` returns `0` with no side effects;
otherwise, with `n = min(count, number of registered tokens)` where
`count == UINT32_MAX` means all, `wakeAddress` signals exactly the first `n`
tokens in FIFO registration order, removes exactly those `n` from the list,
and returns `n` — provided `n ≤ UINT32_MAX`.  In the remaining case (only
reachable when `count == UINT32_MAX` and more than `UINT32_MAX` tokens are
registered) it signals and removes the tokens but then throws
`integerDivideByZeroOrIntegerOverflow` instead of returning `n`. -/
theorem wakeAddress_spec (m : AddrMap) (addr numToWake : Nat)
    (hc : numToWake < 2 ^ 32) :
    (wakeAddress m addr 0 = ⟨Except.ok 0, [], m⟩) ∧
    (numToWake ≠ 0 →
      (wakeAddress m addr numToWake).signaled
        = (eventsOf m addr).take (claimWakeCount numToWake (eventsOf m addr).length) ∧
      (refsPos m →
        eventsOf (wakeAddress m addr numToWake).finalMap addr
          = (eventsOf m addr).drop
              (claimWakeCount numToWake (eventsOf m addr).length)) ∧
      (claimWakeCount numToWake (eventsOf m addr).length ≤ U32_MAX →
        (wakeAddress m addr numToWake).result
          = Except.ok (claimWakeCount numToWake (eventsOf m addr).length)) ∧
      (U32_MAX < claimWakeCount numToWake (eventsOf m addr).length →
        (wakeAddress m addr numToWake).result
          = Except.error TrapKind.integerDivideByZeroOrIntegerOverflow)) := by
  have hact := actual_eq_claimWakeCount numToWake (eventsOf m addr).length
  refine ⟨by simp [wakeAddress], fun hnz => ⟨?_, fun hm => ?_, fun hle => ?_, fun hgt => ?_⟩⟩
  · rw [wakeAddress_signaled_eq m addr numToWake hnz, hact]
  · rw [wakeAddress_finalMap_events m addr numToWake hnz hm, hact]
  · rw [wakeAddress_result_eq m addr numToWake hnz, hact]
    rw [if_neg (not_lt.mpr hle)]
    rw [Nat.mod_eq_of_lt (by unfold U32_MAX at hle; omega)]
  · rw [wakeAddress_result_eq m addr numToWake hnz, hact]
    rw [if_pos hgt]

/-- Witness for C1 at a concrete input: three registered tokens, `count = 2`
signals and removes the first two in order and returns 2. -/
theorem wakeAddress_spec_witness :
    (wakeAddress [(2, ⟨[10, 11, 12], 1⟩)] 2 2).signaled = [10, 11] ∧
    eventsOf (wakeAddress [(2, ⟨[10, 11, 12], 1⟩)] 2 2).finalMap 2 = [12] ∧
    (wakeAddress [(2, ⟨[10, 11, 12], 1⟩)] 2 2).result = Except.ok 2 := by
  have h := (wakeAddress_spec [(2, ⟨[10, 11, 12], 1⟩)] 2 2 (by norm_num)).2
    (by norm_num)
  obtain ⟨h1, h2, h3, _⟩ := h
  refine ⟨h1.trans (by decide), (h2 (by decide)).trans (by decide), (h3 (by decide)).trans (by decide)⟩

/-- C1 counterexample: with `2^32` registered tokens and
`count == UINT32_MAX` the claim's `n` is `2^32` ("all"), but instead of
returning `n` the function throws `integerDivideByZeroOrIntegerOverflow`. -/
theorem wakeAddress_huge_list_no_return :
    (wakeAddress [(0, ⟨List.replicate (2 ^ 32) 1, 1⟩)] 0 U32_MAX).result
      = Except.error TrapKind.integerDivideByZeroOrIntegerOverflow := by
  rw [wakeAddress_result_eq _ _ _ (by norm_num [U32_MAX])]
  have hev : eventsOf [(0, ⟨List.replicate (2 ^ 32) 1, 1⟩)] 0
      = List.replicate (2 ^ 32) 1 :=
    eventsOf_cons_self [] 0 ⟨List.replicate (2 ^ 32) 1, 1⟩
  rw [hev, List.length_replicate]
  rw [if_pos (Or.inl rfl)]
  rw [if_pos (by norm_num [U32_MAX])]

/-- C8 (amended): the post-loop check `actualNumToWake > UINT32_MAX` throws
exactly when `count == UINT32_MAX` and more than `UINT32_MAX` wake tokens are
registered; for every other input and state — in particular whenever the
wait list holds at most `UINT32_MAX` tokens — the branch is unreachable. -/
theorem wakeAddress_overflow_characterization (m : AddrMap) (addr numToWake : Nat)
    (hc : numToWake < 2 ^ 32) :
    ((wakeAddress m addr numToWake).result
        = Except.error TrapKind.integerDivideByZeroOrIntegerOverflow
      ↔ numToWake = U32_MAX ∧ U32_MAX < (eventsOf m addr).length) := by
  by_cases hnz : numToWake = 0
  · subst hnz
    simp [wakeAddress, U32_MAX]
  · rw [wakeAddress_result_eq m addr numToWake hnz]
    by_cases h1 : numToWake = U32_MAX
    · rw [if_pos (Or.inl h1)]
      by_cases h2 : U32_MAX < (eventsOf m addr).length
      · rw [if_pos h2]
        simp [h1, h2]
      · rw [if_neg h2]
        simp [h1, h2]
    · have hle : (if numToWake = U32_MAX ∨ numToWake > (eventsOf m addr).length
          then (eventsOf m addr).length else numToWake) ≤ U32_MAX := by
        by_cases h2 : numToWake > (eventsOf m addr).length
        · rw [if_pos (Or.inr h2)]
          unfold U32_MAX at h1 ⊢
          omega
        · rw [if_neg (by push_neg; exact ⟨h1, by omega⟩)]
          unfold U32_MAX at h1 ⊢
          omega
      rw [if_neg (not_lt.mpr hle)]
      simp [h1]

/-- Witness for C8 (amended) at a concrete input: a wake of one token on an
empty table does not throw. -/
theorem wakeAddress_overflow_characterization_witness :
    (wakeAddress [] 0 1).result
      ≠ Except.error TrapKind.integerDivideByZeroOrIntegerOverflow := by
  intro hcontra
  have h := (wakeAddress_overflow_characterization [] 0 1 (by norm_num)).mp hcontra
  exact absurd h.1 (by norm_num [U32_MAX])

/-- C8 counterexample: the branch is reachable — with `count == UINT32_MAX`
and `2^32` registered tokens the throw fires, so the check is not dead for
every wait-list state. -/
theorem wakeAddress_overflow_check_fires :
    (wakeAddress [(3, ⟨List.replicate (2 ^ 32) 0, 1⟩)] 3 U32_MAX).result
      = Except.error TrapKind.integerDivideByZeroOrIntegerOverflow := by
  rw [wakeAddress_result_eq _ _ _ (by norm_num [U32_MAX])]
  have hev : eventsOf [(3, ⟨List.replicate (2 ^ 32) 0, 1⟩)] 3
      = List.replicate (2 ^ 32) 0 :=
    eventsOf_cons_self [] 3 ⟨List.replicate (2 ^ 32) 0, 1⟩
  rw [hev, List.length_replicate]
  rw [if_pos (Or.inl rfl)]
  rw [if_pos (by norm_num [U32_MAX])]

/-- C6: after `emitModule`, every function definition `j` has prefix data
that is exactly the two-element array of machine-word constants whose first
element is the `ptrtoint` cast of the external symbol
`functionDefInstance<j>` and whose second is `typeIds[def.type.index]`, and
the personality function is attached to that definition. -/
theorem emitModule_prefixData_spec (irModule : IRModuleM) (windowsSEH : Bool)
    (j : Nat) (hj : j < irModule.defs.length)
    (htype : (irModule.defs.get ⟨j, hj⟩).typeIndex < irModule.numTypes) :
    (emitModule irModule windowsSEH).functionDefs.length = irModule.defs.length ∧
    (emitModule irModule windowsSEH).typeIds.length = irModule.numTypes ∧
    ((emitModule irModule windowsSEH).functionDefs.getD j ⟨none, []⟩).prefixData
      = [ LLVMConst.ptrToInt
            (.importedGlobal (getExternalName "functionDefInstance" j)),
          (emitModule irModule windowsSEH).typeIds.getD
            (irModule.defs.get ⟨j, hj⟩).typeIndex (.importedGlobal "") ] ∧
    ((emitModule irModule windowsSEH).functionDefs.getD j ⟨none, []⟩).personality
      = some (emitModule irModule windowsSEH).personalityName ∧
    (emitModule irModule windowsSEH).typeIds.getD
        (irModule.defs.get ⟨j, hj⟩).typeIndex (.importedGlobal "")
      = LLVMConst.ptrToInt (.importedGlobal
          (getExternalName "typeId" (irModule.defs.get ⟨j, hj⟩).typeIndex)) := by
  have hlenF : (emitModule irModule windowsSEH).functionDefs.length
      = irModule.defs.length := by
    simp [emitModule]
  have hlenT : (emitModule irModule windowsSEH).typeIds.length
      = irModule.numTypes := by
    simp [emitModule, emitTypeIds]
  have hget : (emitModule irModule windowsSEH).functionDefs.getD j ⟨none, []⟩
      = emitFunctionDef (emitTypeIds irModule.numTypes)
          (personalityFunctionName windowsSEH) j (irModule.defs.get ⟨j, hj⟩) := by
    rw [List.getD_eq_getElem _ _ (by rw [hlenF]; exact hj)]
    simp [emitModule, List.getElem?_eq_getElem hj]
  have htid : (emitModule irModule windowsSEH).typeIds = emitTypeIds irModule.numTypes := by
    simp [emitModule]
  refine ⟨hlenF, hlenT, ?_, ?_, ?_⟩
  · rw [hget]
    unfold emitFunctionDef
    rw [htid]
  · rw [hget]
    unfold emitFunctionDef
    have hpers : (emitModule irModule windowsSEH).personalityName
        = personalityFunctionName windowsSEH := by
      simp [emitModule]
    rw [hpers]
  · rw [htid]
    unfold emitTypeIds
    rw [List.getD_eq_getElem _ _ (by simpa using htype)]
    simp

/-- Witness for C6 at a concrete module: one type, no imports, one function
definition of type index 0, SEH target. -/
theorem emitModule_prefixData_spec_witness :
    ((emitModule ⟨1, 0, [⟨0⟩], 0, 0, 0, 0⟩ true).functionDefs.getD 0 ⟨none, []⟩).prefixData
      = [ LLVMConst.ptrToInt (.importedGlobal "functionDefInstance0"),
          LLVMConst.ptrToInt (.importedGlobal "typeId0") ] := by
  have h := (emitModule_prefixData_spec ⟨1, 0, [⟨0⟩], 0, 0, 0, 0⟩ true 0
    (by norm_num) (by norm_num)).2.2.1
  exact h.trans (by decide)

/-- C7: `emitModule` names the personality function `__C_specific_handler`
on Windows SEH targets and `__gxx_personality_v0` elsewhere, and a
`__cxa_begin_catch` external declaration of type `i8* → i8*` exists in the
emitted module iff the target is not SEH, created during
`EmitModuleContext` construction, before every other declaration and in
particular before any function is emitted. -/
theorem emitModule_personality_cxa_spec (irModule : IRModuleM) (windowsSEH : Bool) :
    (emitModule irModule windowsSEH).personalityName
      = (if windowsSEH then "__C_specific_handler" else "__gxx_personality_v0") ∧
    ((Decl.externFunc "__cxa_begin_catch" .i8pToI8p)
        ∈ (emitModule irModule windowsSEH).decls ↔ windowsSEH = false) ∧
    (windowsSEH = false →
      (emitModule irModule windowsSEH).decls.head?
        = some (Decl.externFunc "__cxa_begin_catch" .i8pToI8p)) := by
  cases windowsSEH
  · refine ⟨by simp [emitModule, personalityFunctionName], ?_, fun _ => ?_⟩
    · simp [emitModule, emitModuleContextDecls]
    · simp [emitModule, emitModuleContextDecls]
  · refine ⟨by simp [emitModule, personalityFunctionName], ?_, fun h => by simp at h⟩
    simp [emitModule, emitModuleContextDecls, personalityFunctionName]

/-- Witness for C7 at a concrete module and the non-SEH target: the
`__cxa_begin_catch` declaration is the very first one. -/
theorem emitModule_personality_cxa_spec_witness :
    (emitModule ⟨1, 0, [⟨0⟩], 0, 0, 0, 0⟩ false).decls.head?
      = some (Decl.externFunc "__cxa_begin_catch" FuncSig.i8pToI8p) :=
  (emitModule_personality_cxa_spec ⟨1, 0, [⟨0⟩], 0, 0, 0, 0⟩ false).2.2 rfl
end WAVM
